import Mathlib

/-!
Verification development for the presence & call-routing coordinator of the
nurse-patient video call server (`server.js`, the variant with the
`state.users` / `state.userSockets` / `state.activeCalls` maps and the
`waitingQueue` array).  The JavaScript handlers are embedded as pure Lean
functions over an explicit server state; JS `Map`s become association lists
with first-binding lookup, `Map.set` replace-in-place-or-append, and
`Map.delete` semantics.  Socket emissions are collected in an output list.
-/

namespace VideoCall

/-- Socket identifiers (JS `socket.id`). -/
abbrev SocketId := String

/-- Logical user identifiers (`userId` strings supplied at registration). -/
abbrev UserId := String

/-- An entry of `state.users`: `{ id, role, busy, socketId }`.  Roles are the
raw strings `"nurse"` / `"patient"`, exactly as validated by the `register`
handler. -/
structure User where
  id : UserId
  role : String
  busy : Bool
  socketId : SocketId
deriving Repr, DecidableEq

/-- JS `Map.get`: the value bound to the key, `none` when absent.  On the
association-list model the first binding wins. -/
def mapGet {α β : Type} [DecidableEq α] : List (α × β) → α → Option β
  | [], _ => none
  | (k, v) :: rest, k0 => if k = k0 then some v else mapGet rest k0

/-- JS `Map.set`: replace the binding in place when the key is present,
otherwise append a new binding at the end (JS `Map`s preserve insertion
order). -/
def mapSet {α β : Type} [DecidableEq α] : List (α × β) → α → β → List (α × β)
  | [], k0, v0 => [(k0, v0)]
  | (k, v) :: rest, k0, v0 =>
    if k = k0 then (k0, v0) :: rest else (k, v) :: mapSet rest k0 v0

/-- JS `Map.delete`: drop the binding of the key. -/
def mapDelete {α β : Type} [DecidableEq α] : List (α × β) → α → List (α × β)
  | [], _ => []
  | (k, v) :: rest, k0 => if k = k0 then rest else (k, v) :: mapDelete rest k0

/-- The coordinator state: `state.users` (socketId → user record),
`state.userSockets` (userId → socketId), `state.activeCalls`
(userId → partner userId, symmetric), `state.waitingQueue` (patient ids,
FIFO array). -/
structure ServerState where
  users : List (SocketId × User)
  userSockets : List (UserId × SocketId)
  activeCalls : List (UserId × UserId)
  waitingQueue : List UserId
deriving Repr, DecidableEq

/-- The empty initial state of the freshly started server. -/
def initState : ServerState := ⟨[], [], [], []⟩

/-- The socket emissions the handlers produce.  Targets are socket ids;
`onlineUsers` carries the broadcast presence snapshot; WebRTC / chat payloads
are carried as opaque strings. -/
inductive ServerMsg where
  | registered (target : SocketId) (userId : UserId) (role : String)
  | errorMsg (target : SocketId) (message : String)
  | onlineUsers (snapshot : List (UserId × String × Bool))
  | incomingCall (target : SocketId) (fromId : UserId) (callerRole : String)
  | callStarted (target : SocketId) (peerId : UserId)
  | callWaiting (target : SocketId) (queuePosition : Nat)
  | waitingPatient (target : SocketId) (patientId : UserId) (queueLength : Nat)
  | callEnded (target : SocketId) (fromId : UserId)
  | offerMsg (target : SocketId) (fromId : UserId) (payload : String)
  | answerMsg (target : SocketId) (fromId : UserId) (payload : String)
  | candidateMsg (target : SocketId) (fromId : UserId) (payload : String)
  | chatMsg (target : SocketId) (fromId : UserId) (payload : String)
  | queueList (target : SocketId) (queue : List UserId)
deriving Repr, DecidableEq

/-- `getUserBySocketId`: `state.users.get(socketId)`. -/
def getUserBySocketId (st : ServerState) (sock : SocketId) : Option User :=
  mapGet st.users sock

/-- `getUserById`: `state.userSockets.get(userId)` then `state.users.get`. -/
def getUserById (st : ServerState) (uid : UserId) : Option User :=
  (mapGet st.userSockets uid).bind fun sock => mapGet st.users sock

/-- `getOnlineUsers()`: the presence snapshot `{id, role, busy}` per user. -/
def getOnlineUsers (st : ServerState) : List (UserId × String × Bool) :=
  st.users.map fun p => (p.2.id, p.2.role, p.2.busy)

/-- `setUserBusy(userId, busy)`: look the user up by id, set its `busy`
flag and store it back under its own `socketId`; no-op when unknown. -/
def setUserBusy (uid : UserId) (b : Bool) (st : ServerState) : ServerState :=
  match getUserById st uid with
  | none => st
  | some u => { st with users := mapSet st.users u.socketId { u with busy := b } }

/-- `startCall(callerId, calleeId)`: resolve both users; on success mark both
busy, record the symmetric call binding, emit `incomingCall` to the callee and
broadcast presence; the boolean is the JS `{ success }` flag. -/
def startCall (callerId calleeId : UserId) (st : ServerState) :
    ServerState × List ServerMsg × Bool :=
  match getUserById st callerId, getUserById st calleeId with
  | some caller, some callee =>
    let st1 := setUserBusy callerId true st
    let st2 := setUserBusy calleeId true st1
    let st3 := { st2 with
      activeCalls := mapSet (mapSet st2.activeCalls callerId calleeId) calleeId callerId }
    (st3,
      [ServerMsg.incomingCall callee.socketId callerId caller.role,
       ServerMsg.onlineUsers (getOnlineUsers st3)],
      true)
  | _, _ => (st, [], false)

/-- `endCall(userId)`: resolve the partner from `activeCalls` (no-op when
absent), clear `busy` on both ends where still registered, emit `callEnded`
to the partner, delete both bindings, notify a nurse of queued work, and
broadcast presence.  The JS function returns `undefined`; the `Option UserId`
result is the partner id the code resolves (the observable "ended partner",
also the `from` field of the `callEnded` emission). -/
def endCall (uid : UserId) (st : ServerState) :
    ServerState × List ServerMsg × Option UserId :=
  match mapGet st.activeCalls uid with
  | none => (st, [], none)
  | some partnerId =>
    let user := getUserById st uid
    let partner := getUserById st partnerId
    let st1 := if user.isSome then setUserBusy uid false st else st
    let st2 := if partner.isSome then setUserBusy partnerId false st1 else st1
    let msgs1 := match partner with
      | some pu => [ServerMsg.callEnded pu.socketId uid]
      | none => []
    let st3 := { st2 with
      activeCalls := mapDelete (mapDelete st2.activeCalls uid) partnerId }
    let msgs2 := match user with
      | some u =>
        if u.role = "nurse" ∧ st3.waitingQueue ≠ [] then
          [ServerMsg.waitingPatient u.socketId st3.waitingQueue.headI
            st3.waitingQueue.length]
        else []
      | none => []
    (st3, msgs1 ++ msgs2 ++ [ServerMsg.onlineUsers (getOnlineUsers st3)],
      some partnerId)

/-- `waitingQueue` enqueue as the `callUser` handler performs it:
push at the end unless the id is already queued. -/
def enqueue (q : List UserId) (x : UserId) : List UserId :=
  if x ∈ q then q else q ++ [x]

/-- `waitingQueue` removal as `acceptWaiting` / disconnect cleanup perform it:
`indexOf` then `splice(queueIndex, 1)`, i.e. erase the first occurrence
(a no-op when the id is absent, matching the `queueIndex !== -1` guard). -/
def removeId (q : List UserId) (x : UserId) : List UserId := q.erase x

/-- The `register` handler: validate the id and role, reject a duplicate id
held by a different socket, acknowledge idempotently when the same socket
re-registers, otherwise create the entry and broadcast presence. -/
def registerHandler (sock : SocketId) (userId role : String) (st : ServerState) :
    ServerState × List ServerMsg :=
  if userId = "" then (st, [ServerMsg.errorMsg sock "Invalid user ID"])
  else if role ≠ "nurse" ∧ role ≠ "patient" then
    (st, [ServerMsg.errorMsg sock "Invalid role"])
  else
    match mapGet st.userSockets userId with
    | some existingSocketId =>
      if existingSocketId = sock then (st, [ServerMsg.registered sock userId role])
      else (st, [ServerMsg.errorMsg sock "User ID already registered"])
    | none =>
      let u : User := ⟨userId, role, false, sock⟩
      let st1 := { st with
        users := mapSet st.users sock u,
        userSockets := mapSet st.userSockets userId sock }
      (st1, [ServerMsg.registered sock userId role,
             ServerMsg.onlineUsers (getOnlineUsers st1)])

/-- The `callUser` handler: resolve caller and callee, reject same-role calls,
queue a patient calling a busy nurse (rejecting other busy targets), and
otherwise start the call. -/
def callUser (sock : SocketId) (calleeId : UserId) (st : ServerState) :
    ServerState × List ServerMsg :=
  match mapGet st.users sock with
  | none => (st, [ServerMsg.errorMsg sock "Not registered"])
  | some caller =>
    match getUserById st calleeId with
    | none => (st, [ServerMsg.errorMsg sock "User not found or offline"])
    | some callee =>
      if caller.role = callee.role then
        (st, [ServerMsg.errorMsg sock "Cannot call users with same role"])
      else if callee.busy then
        if caller.role = "patient" ∧ callee.role = "nurse" then
          if caller.id ∈ st.waitingQueue then
            (st, [ServerMsg.callWaiting sock (st.waitingQueue.indexOf caller.id + 1)])
          else
            let st1 := { st with waitingQueue := st.waitingQueue ++ [caller.id] }
            (st1, [ServerMsg.waitingPatient callee.socketId caller.id
                     st1.waitingQueue.length,
                   ServerMsg.callWaiting sock (st1.waitingQueue.indexOf caller.id + 1)])
        else (st, [ServerMsg.errorMsg sock "User is currently busy"])
      else
        match startCall caller.id callee.id st with
        | (st1, msgs, true) => (st1, msgs ++ [ServerMsg.callStarted sock calleeId])
        | (st1, msgs, false) => (st1, msgs ++ [ServerMsg.errorMsg sock "User not found"])

/-- The `acceptWaiting` handler (nurse admits a specific queued patient):
authorize the caller as a nurse, require the patient to be queued, drop the
queue entry, reject when the patient went offline, otherwise start the call
and acknowledge to the patient. -/
def acceptWaiting (sock : SocketId) (patientId : UserId) (st : ServerState) :
    ServerState × List ServerMsg :=
  match mapGet st.users sock with
  | none => (st, [ServerMsg.errorMsg sock "Unauthorized action"])
  | some nurse =>
    if nurse.role ≠ "nurse" then (st, [ServerMsg.errorMsg sock "Unauthorized action"])
    else if patientId ∈ st.waitingQueue then
      let st1 := { st with waitingQueue := removeId st.waitingQueue patientId }
      match getUserById st1 patientId with
      | none => (st1, [ServerMsg.errorMsg sock "Patient offline"])
      | some patient =>
        match startCall nurse.id patientId st1 with
        | (st2, msgs, true) =>
          (st2, msgs ++ [ServerMsg.callStarted patient.socketId nurse.id])
        | (st2, msgs, false) => (st2, msgs)
    else (st, [ServerMsg.errorMsg sock "Patient not in queue"])

/-- The `endCall` handler: only acts when the sender's recorded partner
matches the requested `to` id. -/
def endCallHandler (sock : SocketId) (toId : UserId) (st : ServerState) :
    ServerState × List ServerMsg :=
  match mapGet st.users sock with
  | none => (st, [])
  | some sender =>
    if mapGet st.activeCalls sender.id = some toId then
      let r := endCall sender.id st
      (r.1, r.2.1)
    else (st, [])

/-- Shared resolution step of the four relay handlers: sender by connection,
target by id; `none` when either lookup fails. -/
def relayResolve (st : ServerState) (sock : SocketId) (toId : UserId) :
    Option (User × User) :=
  match mapGet st.users sock, getUserById st toId with
  | some sender, some target => some (sender, target)
  | _, _ => none

/-- The `offer` handler: forward the payload to the target's socket, silently
dropping the request when either resolution fails. -/
def offerHandler (sock : SocketId) (toId : UserId) (payload : String)
    (st : ServerState) : ServerState × List ServerMsg :=
  match relayResolve st sock toId with
  | none => (st, [])
  | some (sender, target) => (st, [ServerMsg.offerMsg target.socketId sender.id payload])

/-- The `answer` handler, same shape as `offer`. -/
def answerHandler (sock : SocketId) (toId : UserId) (payload : String)
    (st : ServerState) : ServerState × List ServerMsg :=
  match relayResolve st sock toId with
  | none => (st, [])
  | some (sender, target) => (st, [ServerMsg.answerMsg target.socketId sender.id payload])

/-- The `ice-candidate` handler, same shape as `offer`. -/
def candidateHandler (sock : SocketId) (toId : UserId) (payload : String)
    (st : ServerState) : ServerState × List ServerMsg :=
  match relayResolve st sock toId with
  | none => (st, [])
  | some (sender, target) =>
    (st, [ServerMsg.candidateMsg target.socketId sender.id payload])

/-- The `chatMessage` handler, same shape as `offer`. -/
def chatHandler (sock : SocketId) (toId : UserId) (payload : String)
    (st : ServerState) : ServerState × List ServerMsg :=
  match relayResolve st sock toId with
  | none => (st, [])
  | some (sender, target) => (st, [ServerMsg.chatMsg target.socketId sender.id payload])

/-- The `getWaitingQueue` handler: a nurse reads the queue in order. -/
def getWaitingQueueHandler (sock : SocketId) (st : ServerState) :
    ServerState × List ServerMsg :=
  match mapGet st.users sock with
  | some u =>
    if u.role = "nurse" then (st, [ServerMsg.queueList sock st.waitingQueue])
    else (st, [])
  | none => (st, [])

/-- `cleanupUser(socketId)` (the disconnect handler): end an active call,
drop the queue entry, delete the directory entries, broadcast presence. -/
def cleanupUser (sock : SocketId) (st : ServerState) :
    ServerState × List ServerMsg :=
  match mapGet st.users sock with
  | none => (st, [])
  | some user =>
    let r : ServerState × List ServerMsg :=
      if (mapGet st.activeCalls user.id).isSome then
        let e := endCall user.id st
        (e.1, e.2.1)
      else (st, [])
    let st2 := { r.1 with waitingQueue := removeId r.1.waitingQueue user.id }
    let st3 := { st2 with
      users := mapDelete st2.users sock,
      userSockets := mapDelete st2.userSockets user.id }
    (st3, r.2 ++ [ServerMsg.onlineUsers (getOnlineUsers st3)])

/-- The socket events the server reacts to (state-relevant arguments only). -/
inductive Event where
  | register (sock : SocketId) (userId role : String)
  | callUser (sock : SocketId) (calleeId : UserId)
  | acceptWaiting (sock : SocketId) (patientId : UserId)
  | endCall (sock : SocketId) (toId : UserId)
  | offer (sock : SocketId) (toId : UserId) (payload : String)
  | answer (sock : SocketId) (toId : UserId) (payload : String)
  | candidate (sock : SocketId) (toId : UserId) (payload : String)
  | chat (sock : SocketId) (toId : UserId) (payload : String)
  | getQueue (sock : SocketId)
  | disconnect (sock : SocketId)
deriving Repr, DecidableEq

/-- Dispatch of one socket event to its handler. -/
def applyEvent (e : Event) (st : ServerState) : ServerState × List ServerMsg :=
  match e with
  | .register sock uid role => registerHandler sock uid role st
  | .callUser sock calleeId => callUser sock calleeId st
  | .acceptWaiting sock patientId => acceptWaiting sock patientId st
  | .endCall sock toId => endCallHandler sock toId st
  | .offer sock toId payload => offerHandler sock toId payload st
  | .answer sock toId payload => answerHandler sock toId payload st
  | .candidate sock toId payload => candidateHandler sock toId payload st
  | .chat sock toId payload => chatHandler sock toId payload st
  | .getQueue sock => getWaitingQueueHandler sock st
  | .disconnect sock => cleanupUser sock st

/-- Run a list of events from a state, collecting only the final state. -/
def runEvents : List Event → ServerState → ServerState
  | [], st => st
  | e :: rest, st => runEvents rest (applyEvent e st).1

/-- The states the server can actually be in: everything produced from the
empty initial state by socket events. -/
inductive Reachable : ServerState → Prop where
  | init : Reachable initState
  | step (e : Event) {st : ServerState} :
      Reachable st → Reachable (applyEvent e st).1

/-! Association-list map lemmas. -/

/-- Keys of an association-list map are pairwise distinct (always true of a
JS `Map`, and preserved by every operation below). -/
@[reducible] def KeysNodup {α β : Type} (m : List (α × β)) : Prop :=
  (m.map Prod.fst).Nodup

theorem mapGet_eq_none {α β : Type} [DecidableEq α] {m : List (α × β)} {k : α}
    (h : k ∉ m.map Prod.fst) : mapGet m k = none := by
  induction m with
  | nil => rfl
  | cons p rest ih =>
    obtain ⟨a, b⟩ := p
    simp only [List.map_cons, List.mem_cons, not_or] at h
    have hak : ¬ a = k := fun hk => h.1 hk.symm
    simp only [mapGet, if_neg hak]
    exact ih h.2

theorem mem_of_mapGet_eq_some {α β : Type} [DecidableEq α] {m : List (α × β)}
    {k : α} {v : β} (h : mapGet m k = some v) : (k, v) ∈ m := by
  induction m with
  | nil => simp [mapGet] at h
  | cons p rest ih =>
    obtain ⟨a, b⟩ := p
    simp only [mapGet] at h
    split at h
    · rename_i hak
      injection h with h
      subst h
      subst hak
      exact List.mem_cons_self _ _
    · exact List.mem_cons_of_mem _ (ih h)

theorem mapGet_mapSet {α β : Type} [DecidableEq α] (m : List (α × β))
    (k0 k : α) (v : β) :
    mapGet (mapSet m k0 v) k = if k = k0 then some v else mapGet m k := by
  induction m with
  | nil =>
    by_cases h : k = k0
    · subst h; simp [mapSet, mapGet]
    · have h2 : ¬ k0 = k := fun hk => h hk.symm
      simp [mapSet, mapGet, h, h2]
  | cons p rest ih =>
    obtain ⟨a, b⟩ := p
    by_cases h1 : a = k0 <;> by_cases h2 : a = k
    · subst h1; subst h2; simp [mapSet, mapGet]
    · subst h1
      have h2s : ¬ k = a := fun hk => h2 hk.symm
      simp [mapSet, mapGet, h2, h2s]
    · subst h2
      simp [mapSet, mapGet, h1]
    · simp [mapSet, mapGet, h1, h2, ih]

theorem mapDelete_sublist {α β : Type} [DecidableEq α] (m : List (α × β)) (k : α) :
    (mapDelete m k).Sublist m := by
  induction m with
  | nil => simp [mapDelete]
  | cons p rest ih =>
    obtain ⟨a, b⟩ := p
    by_cases h : a = k
    · simp only [mapDelete, if_pos h]
      exact List.sublist_cons_self _ _
    · simp only [mapDelete, if_neg h]
      exact ih.cons₂ _

theorem mapGet_mapDelete_ne {α β : Type} [DecidableEq α] (m : List (α × β))
    {k0 k : α} (h : k ≠ k0) : mapGet (mapDelete m k0) k = mapGet m k := by
  induction m with
  | nil => rfl
  | cons p rest ih =>
    obtain ⟨a, b⟩ := p
    by_cases h1 : a = k0 <;> by_cases h2 : a = k
    · exact absurd (h2.symm.trans h1) h
    · subst h1
      simp [mapDelete, mapGet, h2]
    · subst h2
      simp [mapDelete, mapGet, h1]
    · simp [mapDelete, mapGet, h1, h2, ih]

theorem mapGet_mapDelete_self {α β : Type} [DecidableEq α] {m : List (α × β)}
    (k0 : α) (h : KeysNodup m) : mapGet (mapDelete m k0) k0 = none := by
  induction m with
  | nil => rfl
  | cons p rest ih =>
    obtain ⟨a, b⟩ := p
    unfold KeysNodup at h
    simp only [List.map_cons, List.nodup_cons] at h
    by_cases h1 : a = k0
    · simp only [mapDelete, if_pos h1]
      exact mapGet_eq_none (h1 ▸ h.1)
    · simp only [mapDelete, if_neg h1, mapGet, if_neg h1]
      exact ih h.2

theorem mem_keys_mapSet {α β : Type} [DecidableEq α] {m : List (α × β)}
    {k0 x : α} {v : β} (h : x ∈ (mapSet m k0 v).map Prod.fst) :
    x = k0 ∨ x ∈ m.map Prod.fst := by
  induction m with
  | nil => simpa [mapSet] using h
  | cons p rest ih =>
    obtain ⟨a, b⟩ := p
    by_cases h1 : a = k0
    · simp only [mapSet, if_pos h1, List.map_cons, List.mem_cons] at h ⊢
      rcases h with h | h
      · exact Or.inl h
      · exact Or.inr (Or.inr h)
    · simp only [mapSet, if_neg h1, List.map_cons, List.mem_cons] at h ⊢
      rcases h with h | h
      · exact Or.inr (Or.inl h)
      · rcases ih h with h2 | h2
        · exact Or.inl h2
        · exact Or.inr (Or.inr h2)

theorem keysNodup_mapSet {α β : Type} [DecidableEq α] {m : List (α × β)}
    (k0 : α) (v : β) (h : KeysNodup m) : KeysNodup (mapSet m k0 v) := by
  induction m with
  | nil => simp [KeysNodup, mapSet]
  | cons p rest ih =>
    obtain ⟨a, b⟩ := p
    unfold KeysNodup at h ⊢
    simp only [List.map_cons, List.nodup_cons] at h
    by_cases h1 : a = k0
    · simp only [mapSet, if_pos h1, List.map_cons, List.nodup_cons]
      exact ⟨h1 ▸ h.1, h.2⟩
    · simp only [mapSet, if_neg h1, List.map_cons, List.nodup_cons]
      refine ⟨fun hm => ?_, ih h.2⟩
      rcases mem_keys_mapSet hm with h2 | h2
      · exact h1 h2
      · exact h.1 h2

theorem keysNodup_mapDelete {α β : Type} [DecidableEq α] {m : List (α × β)}
    (k0 : α) (h : KeysNodup m) : KeysNodup (mapDelete m k0) :=
  List.Nodup.sublist ((mapDelete_sublist m k0).map Prod.fst) h

theorem mem_mapSet {α β : Type} [DecidableEq α] {m : List (α × β)}
    {k0 : α} {v : β} {p : α × β} (h : p ∈ mapSet m k0 v) :
    p ∈ m ∨ p = (k0, v) := by
  induction m with
  | nil =>
    simp only [mapSet, List.mem_singleton] at h
    exact Or.inr h
  | cons q rest ih =>
    obtain ⟨a, b⟩ := q
    by_cases h1 : a = k0
    · simp only [mapSet, if_pos h1, List.mem_cons] at h
      rcases h with h | h
      · exact Or.inr h
      · exact Or.inl (List.mem_cons_of_mem _ h)
    · simp only [mapSet, if_neg h1, List.mem_cons] at h
      rcases h with h | h
      · exact Or.inl (by simp [h])
      · rcases ih h with h2 | h2
        · exact Or.inl (List.mem_cons_of_mem _ h2)
        · exact Or.inr h2

/-! Lemmas about `setUserBusy` and the directory lookups. -/

/-- Every `users` entry records its own map key in its `socketId` field; this
holds in every reachable state (`register` stores the entry under its own
socket id, `setUserBusy` writes back under `u.socketId`). -/
@[reducible] def SockConsistent (st : ServerState) : Prop :=
  ∀ p ∈ st.users, p.2.socketId = p.1

theorem setUserBusy_userSockets (uid : UserId) (b : Bool) (st : ServerState) :
    (setUserBusy uid b st).userSockets = st.userSockets := by
  unfold setUserBusy; split <;> rfl

theorem setUserBusy_activeCalls (uid : UserId) (b : Bool) (st : ServerState) :
    (setUserBusy uid b st).activeCalls = st.activeCalls := by
  unfold setUserBusy; split <;> rfl

theorem setUserBusy_waitingQueue (uid : UserId) (b : Bool) (st : ServerState) :
    (setUserBusy uid b st).waitingQueue = st.waitingQueue := by
  unfold setUserBusy; split <;> rfl

theorem sockConsistent_setUserBusy {st : ServerState} (uid : UserId) (b : Bool)
    (hsc : SockConsistent st) : SockConsistent (setUserBusy uid b st) := by
  unfold setUserBusy
  split
  · exact hsc
  · rename_i u hu
    intro p hp
    rcases mem_mapSet hp with h | h
    · exact hsc p h
    · subst h; rfl

theorem getUserById_setUserBusy_self {st : ServerState} {uid : UserId}
    (b : Bool) {u : User} (hsc : SockConsistent st)
    (h : getUserById st uid = some u) :
    getUserById (setUserBusy uid b st) uid = some { u with busy := b } := by
  have hg : getUserById st uid = some u := h
  unfold getUserById at h
  cases hk : mapGet st.userSockets uid with
  | none => rw [hk] at h; simp at h
  | some k =>
    rw [hk] at h
    simp only [Option.some_bind] at h
    have hks : u.socketId = k := hsc (k, u) (mem_of_mapGet_eq_some h)
    unfold setUserBusy
    split
    · rename_i hnone
      rw [hg] at hnone
      cases hnone
    · rename_i u0 hu0
      rw [hg] at hu0
      injection hu0 with hu0
      subst hu0
      unfold getUserById
      simp only [hk, Option.some_bind]
      rw [mapGet_mapSet, if_pos hks.symm]

theorem busy_of_getUserById_setUserBusy {st : ServerState} {uid : UserId}
    {b : Bool} {x : UserId} {w : User}
    (h : getUserById (setUserBusy uid b st) x = some w) :
    getUserById st x = some w ∨ w.busy = b := by
  unfold setUserBusy at h
  split at h
  · exact Or.inl h
  · rename_i u hu
    unfold getUserById at h ⊢
    cases hk : mapGet st.userSockets x with
    | none => rw [hk] at h; simp at h
    | some k =>
      rw [hk] at h
      simp only [Option.some_bind] at h ⊢
      rw [mapGet_mapSet] at h
      by_cases hks : k = u.socketId
      · rw [if_pos hks] at h
        right
        injection h with h
        subst h
        rfl
      · rw [if_neg hks] at h
        exact Or.inl h

theorem isSome_getUserById_setUserBusy {st : ServerState} (uid : UserId)
    (b : Bool) {x : UserId} (h : (getUserById st x).isSome) :
    (getUserById (setUserBusy uid b st) x).isSome := by
  unfold setUserBusy
  split
  · exact h
  · rename_i u hu
    unfold getUserById at h ⊢
    cases hk : mapGet st.userSockets x with
    | none => rw [hk] at h; simp at h
    | some k =>
      rw [hk] at h
      simp only [Option.some_bind] at h ⊢
      rw [mapGet_mapSet]
      by_cases hks : k = u.socketId
      · rw [if_pos hks]; rfl
      · rw [if_neg hks]; exact h

theorem keysNodup_users_setUserBusy {st : ServerState} (uid : UserId) (b : Bool)
    (h : KeysNodup st.users) : KeysNodup (setUserBusy uid b st).users := by
  unfold setUserBusy
  split
  · exact h
  · exact keysNodup_mapSet _ _ h

/-! The structural well-formedness invariant of reachable states. -/

/-- Well-formedness maintained by every handler: the three JS `Map`s have
pairwise-distinct keys, the waiting queue holds no duplicate id, and every
`users` entry records its own key in its `socketId` field. -/
structure WF (st : ServerState) : Prop where
  usersKeys : KeysNodup st.users
  socketsKeys : KeysNodup st.userSockets
  callsKeys : KeysNodup st.activeCalls
  queueNodup : st.waitingQueue.Nodup
  sockConsistent : SockConsistent st

theorem wf_setUserBusy (uid : UserId) (b : Bool) {st : ServerState}
    (h : WF st) : WF (setUserBusy uid b st) :=
  ⟨keysNodup_users_setUserBusy uid b h.usersKeys,
   by rw [setUserBusy_userSockets]; exact h.socketsKeys,
   by rw [setUserBusy_activeCalls]; exact h.callsKeys,
   by rw [setUserBusy_waitingQueue]; exact h.queueNodup,
   sockConsistent_setUserBusy uid b h.sockConsistent⟩

theorem wf_startCall (a b : UserId) {st : ServerState} (h : WF st) :
    WF (startCall a b st).1 := by
  unfold startCall
  split
  · dsimp only
    have h2 : WF (setUserBusy b true (setUserBusy a true st)) :=
      wf_setUserBusy _ _ (wf_setUserBusy _ _ h)
    exact ⟨h2.usersKeys, h2.socketsKeys,
      keysNodup_mapSet _ _ (keysNodup_mapSet _ _ h2.callsKeys),
      h2.queueNodup, h2.sockConsistent⟩
  · exact h

theorem wf_busyIf (c : Prop) [Decidable c] (uid : UserId) (b : Bool)
    {st : ServerState} (h : WF st) :
    WF (if c then setUserBusy uid b st else st) := by
  split
  · exact wf_setUserBusy _ _ h
  · exact h

theorem wf_endCall (uid : UserId) {st : ServerState} (h : WF st) :
    WF (endCall uid st).1 := by
  unfold endCall
  split
  · exact h
  · rename_i partnerId hp
    dsimp only
    have h2 : WF (if (getUserById st partnerId).isSome = true then
        setUserBusy partnerId false
          (if (getUserById st uid).isSome = true then setUserBusy uid false st else st)
      else
        (if (getUserById st uid).isSome = true then setUserBusy uid false st else st)) :=
      wf_busyIf _ _ _ (wf_busyIf _ _ _ h)
    exact ⟨h2.usersKeys, h2.socketsKeys,
      keysNodup_mapDelete _ (keysNodup_mapDelete _ h2.callsKeys),
      h2.queueNodup, h2.sockConsistent⟩

theorem wf_registerHandler (sock : SocketId) (uid role : String)
    {st : ServerState} (h : WF st) : WF (registerHandler sock uid role st).1 := by
  unfold registerHandler
  split
  · exact h
  · split
    · exact h
    · split
      · split
        · exact h
        · exact h
      · dsimp only
        refine ⟨keysNodup_mapSet _ _ h.usersKeys,
          keysNodup_mapSet _ _ h.socketsKeys, h.callsKeys, h.queueNodup, ?_⟩
        intro p hp
        rcases mem_mapSet hp with hm | hm
        · exact h.sockConsistent p hm
        · subst hm; rfl

theorem wf_callUser (sock : SocketId) (calleeId : UserId) {st : ServerState}
    (h : WF st) : WF (callUser sock calleeId st).1 := by
  unfold callUser
  split
  · exact h
  · rename_i caller hc
    split
    · exact h
    · rename_i callee he
      split
      · exact h
      · split
        · split
          · split
            · exact h
            · rename_i hq
              dsimp only
              refine ⟨h.usersKeys, h.socketsKeys, h.callsKeys, ?_, h.sockConsistent⟩
              refine List.Nodup.append h.queueNodup (List.nodup_singleton _) ?_
              intro x hx hx1
              simp only [List.mem_singleton] at hx1
              subst hx1
              exact hq hx
          · exact h
        · split
          · rename_i st1 msgs heq
            have hw := wf_startCall caller.id callee.id h
            rw [heq] at hw
            exact hw
          · rename_i st1 msgs heq
            have hw := wf_startCall caller.id callee.id h
            rw [heq] at hw
            exact hw

theorem wf_acceptWaiting (sock : SocketId) (patientId : UserId)
    {st : ServerState} (h : WF st) : WF (acceptWaiting sock patientId st).1 := by
  unfold acceptWaiting
  split
  · exact h
  · rename_i nurse hn
    split
    · exact h
    · split
      · dsimp only
        have h1 : WF { st with waitingQueue := removeId st.waitingQueue patientId } :=
          ⟨h.usersKeys, h.socketsKeys, h.callsKeys,
           h.queueNodup.erase patientId, h.sockConsistent⟩
        split
        · exact h1
        · rename_i patient hpat
          split
          · rename_i st2 msgs heq
            have hw := wf_startCall nurse.id patientId h1
            rw [heq] at hw
            exact hw
          · rename_i st2 msgs heq
            have hw := wf_startCall nurse.id patientId h1
            rw [heq] at hw
            exact hw
      · exact h

theorem wf_endCallHandler (sock : SocketId) (toId : UserId) {st : ServerState}
    (h : WF st) : WF (endCallHandler sock toId st).1 := by
  unfold endCallHandler
  split
  · exact h
  · split
    · exact wf_endCall _ h
    · exact h

theorem wf_cleanupUser (sock : SocketId) {st : ServerState} (h : WF st) :
    WF (cleanupUser sock st).1 := by
  unfold cleanupUser
  split
  · exact h
  · rename_i user hu
    dsimp only
    have h1 : WF (if (mapGet st.activeCalls user.id).isSome = true then
        ((endCall user.id st).1, (endCall user.id st).2.1)
      else (st, [])).1 := by
      split
      · exact wf_endCall _ h
      · exact h
    refine ⟨keysNodup_mapDelete _ h1.usersKeys, keysNodup_mapDelete _ h1.socketsKeys,
      h1.callsKeys, h1.queueNodup.erase user.id, ?_⟩
    intro p hp
    exact h1.sockConsistent p ((mapDelete_sublist _ _).subset hp)

theorem wf_applyEvent (e : Event) {st : ServerState} (h : WF st) :
    WF (applyEvent e st).1 := by
  cases e with
  | register sock uid role => exact wf_registerHandler sock uid role h
  | callUser sock calleeId => exact wf_callUser sock calleeId h
  | acceptWaiting sock patientId => exact wf_acceptWaiting sock patientId h
  | endCall sock toId => exact wf_endCallHandler sock toId h
  | offer sock toId payload =>
    show WF (offerHandler sock toId payload st).1
    unfold offerHandler
    split
    · exact h
    · exact h
  | answer sock toId payload =>
    show WF (answerHandler sock toId payload st).1
    unfold answerHandler
    split
    · exact h
    · exact h
  | candidate sock toId payload =>
    show WF (candidateHandler sock toId payload st).1
    unfold candidateHandler
    split
    · exact h
    · exact h
  | chat sock toId payload =>
    show WF (chatHandler sock toId payload st).1
    unfold chatHandler
    split
    · exact h
    · exact h
  | getQueue sock =>
    show WF (getWaitingQueueHandler sock st).1
    unfold getWaitingQueueHandler
    split
    · split
      · exact h
      · exact h
    · exact h
  | disconnect sock => exact wf_cleanupUser sock h

theorem wf_initState : WF initState :=
  ⟨by simp [KeysNodup, initState], by simp [KeysNodup, initState],
   by simp [KeysNodup, initState], by simp [initState],
   by intro p hp; simp [initState] at hp⟩

/-- Every reachable server state is well-formed. -/
theorem reachable_wf {st : ServerState} (h : Reachable st) : WF st := by
  induction h with
  | init => exact wf_initState
  | step e hr ih => exact wf_applyEvent e ih

/-! Postcondition lemmas for `startCall` and `endCall`. -/

theorem getUserById_set_activeCalls (st : ServerState)
    (ac : List (UserId × UserId)) (x : UserId) :
    getUserById { st with activeCalls := ac } x = getUserById st x := rfl

theorem startCall_false {a b : UserId} {st st1 : ServerState}
    {msgs : List ServerMsg} (h : startCall a b st = (st1, msgs, false)) :
    st1 = st ∧ msgs = [] := by
  unfold startCall at h
  split at h
  · injection h with h1 h2
    injection h2 with h2 h3
    cases h3
  · injection h with h1 h2
    injection h2 with h2 h3
    exact ⟨h1.symm, h2.symm⟩

theorem startCall_true {a b : UserId} {st st1 : ServerState}
    {msgs : List ServerMsg} (h : startCall a b st = (st1, msgs, true)) :
    ∃ u1 u2 : User, getUserById st a = some u1 ∧ getUserById st b = some u2 := by
  unfold startCall at h
  split at h
  · rename_i u1 u2 h1 h2
    exact ⟨u1, u2, h1, h2⟩
  · injection h with h1 h2
    injection h2 with h2 h3
    cases h3

theorem startCall_post {st : ServerState} {a b : UserId} {u1 u2 : User}
    (hsc : SockConsistent st)
    (h1 : getUserById st a = some u1) (h2 : getUserById st b = some u2) :
    (startCall a b st).2.2 = true ∧
    ((getUserById (startCall a b st).1 a).map User.busy = some true) ∧
    ((getUserById (startCall a b st).1 b).map User.busy = some true) ∧
    mapGet (startCall a b st).1.activeCalls a = some b ∧
    mapGet (startCall a b st).1.activeCalls b = some a ∧
    (startCall a b st).1.userSockets = st.userSockets ∧
    (startCall a b st).1.waitingQueue = st.waitingQueue ∧
    SockConsistent (startCall a b st).1 := by
  unfold startCall
  rw [h1, h2]
  dsimp only
  have hsc1 : SockConsistent (setUserBusy a true st) :=
    sockConsistent_setUserBusy _ _ hsc
  have hsc2 : SockConsistent (setUserBusy b true (setUserBusy a true st)) :=
    sockConsistent_setUserBusy _ _ hsc1
  have e1 : getUserById (setUserBusy a true st) a = some { u1 with busy := true } :=
    getUserById_setUserBusy_self true hsc h1
  have hx : (getUserById (setUserBusy b true (setUserBusy a true st)) a).isSome :=
    isSome_getUserById_setUserBusy b true (by rw [e1]; rfl)
  obtain ⟨w, hw⟩ := Option.isSome_iff_exists.mp hx
  have hwb : w.busy = true := by
    rcases busy_of_getUserById_setUserBusy hw with hc | hc
    · rw [e1] at hc
      injection hc with hc
      rw [← hc]
    · exact hc
  have hb1 : (getUserById (setUserBusy a true st) b).isSome :=
    isSome_getUserById_setUserBusy a true (by rw [h2]; rfl)
  obtain ⟨w2, hw2⟩ := Option.isSome_iff_exists.mp hb1
  have e2 : getUserById (setUserBusy b true (setUserBusy a true st)) b =
      some { w2 with busy := true } :=
    getUserById_setUserBusy_self true hsc1 hw2
  refine ⟨rfl, ?_, ?_, ?_, ?_, ?_, ?_, ?_⟩
  · rw [getUserById_set_activeCalls, hw]
    simp [hwb]
  · rw [getUserById_set_activeCalls, e2]
    simp
  · rw [mapGet_mapSet]
    by_cases hab : a = b
    · subst hab
      simp
    · rw [if_neg hab, mapGet_mapSet, if_pos rfl]
  · rw [mapGet_mapSet, if_pos rfl]
  · rw [setUserBusy_userSockets, setUserBusy_userSockets]
  · rw [setUserBusy_waitingQueue, setUserBusy_waitingQueue]
  · exact hsc2

theorem endCall_ret {st : ServerState} {x y : UserId}
    (h : mapGet st.activeCalls x = some y) : (endCall x st).2.2 = some y := by
  unfold endCall
  rw [h]

theorem endCall_post {st : ServerState} {a b : UserId} {ua ub : User}
    (hsc : SockConsistent st)
    (hab : mapGet st.activeCalls a = some b)
    (hua : getUserById st a = some ua) (hub : getUserById st b = some ub) :
    (endCall a st).2.2 = some b ∧
    ((getUserById (endCall a st).1 a).map User.busy = some false) ∧
    ((getUserById (endCall a st).1 b).map User.busy = some false) := by
  unfold endCall
  rw [hab]
  dsimp only
  have c1 : (getUserById st a).isSome = true := by rw [hua]; rfl
  have c2 : (getUserById st b).isSome = true := by rw [hub]; rfl
  rw [if_pos c1, if_pos c2]
  have hsc1 : SockConsistent (setUserBusy a false st) :=
    sockConsistent_setUserBusy _ _ hsc
  have e1 : getUserById (setUserBusy a false st) a = some { ua with busy := false } :=
    getUserById_setUserBusy_self false hsc hua
  have hx : (getUserById (setUserBusy b false (setUserBusy a false st)) a).isSome :=
    isSome_getUserById_setUserBusy b false (by rw [e1]; rfl)
  obtain ⟨w, hw⟩ := Option.isSome_iff_exists.mp hx
  have hwb : w.busy = false := by
    rcases busy_of_getUserById_setUserBusy hw with hc | hc
    · rw [e1] at hc
      injection hc with hc
      rw [← hc]
    · exact hc
  have hb1 : (getUserById (setUserBusy a false st) b).isSome :=
    isSome_getUserById_setUserBusy a false (by rw [hub]; rfl)
  obtain ⟨w2, hw2⟩ := Option.isSome_iff_exists.mp hb1
  have e2 : getUserById (setUserBusy b false (setUserBusy a false st)) b =
      some { w2 with busy := false } :=
    getUserById_setUserBusy_self false hsc1 hw2
  refine ⟨rfl, ?_, ?_⟩
  · rw [getUserById_set_activeCalls, hw]
    simp [hwb]
  · rw [getUserById_set_activeCalls, e2]
    simp

theorem busyIf_userSockets (c : Prop) [Decidable c] (uid : UserId) (bo : Bool)
    (st : ServerState) :
    (if c then setUserBusy uid bo st else st).userSockets = st.userSockets := by
  split
  · exact setUserBusy_userSockets _ _ _
  · rfl

theorem busyIf_activeCalls (c : Prop) [Decidable c] (uid : UserId) (bo : Bool)
    (st : ServerState) :
    (if c then setUserBusy uid bo st else st).activeCalls = st.activeCalls := by
  split
  · exact setUserBusy_activeCalls _ _ _
  · rfl

theorem busyIf_waitingQueue (c : Prop) [Decidable c] (uid : UserId) (bo : Bool)
    (st : ServerState) :
    (if c then setUserBusy uid bo st else st).waitingQueue = st.waitingQueue := by
  split
  · exact setUserBusy_waitingQueue _ _ _
  · rfl

theorem startCall_waitingQueue (a b : UserId) (st : ServerState) :
    (startCall a b st).1.waitingQueue = st.waitingQueue := by
  unfold startCall
  split
  · dsimp only
    rw [setUserBusy_waitingQueue, setUserBusy_waitingQueue]
  · rfl

theorem endCall_waitingQueue (uid : UserId) (st : ServerState) :
    (endCall uid st).1.waitingQueue = st.waitingQueue := by
  unfold endCall
  split
  · rfl
  · dsimp only
    rw [busyIf_waitingQueue, busyIf_waitingQueue]

/-- After `endCall a` on a state binding `a ↔ b`, both call bindings are
gone and the other state components are untouched. -/
theorem endCall_clears {st : ServerState} {a b : UserId}
    (hwfc : KeysNodup st.activeCalls)
    (hab : mapGet st.activeCalls a = some b) :
    mapGet (endCall a st).1.activeCalls a = none ∧
    mapGet (endCall a st).1.activeCalls b = none ∧
    (endCall a st).1.userSockets = st.userSockets ∧
    (endCall a st).1.waitingQueue = st.waitingQueue := by
  unfold endCall
  rw [hab]
  dsimp only
  rw [busyIf_activeCalls, busyIf_activeCalls, busyIf_userSockets,
    busyIf_userSockets, busyIf_waitingQueue, busyIf_waitingQueue]
  refine ⟨?_, ?_, rfl, rfl⟩
  · by_cases hab2 : a = b
    · subst hab2
      exact mapGet_mapDelete_self _ (keysNodup_mapDelete _ hwfc)
    · rw [mapGet_mapDelete_ne _ hab2]
      exact mapGet_mapDelete_self _ hwfc
  · exact mapGet_mapDelete_self _ (keysNodup_mapDelete _ hwfc)

/-- After `endCall a` on a state binding `a ↔ b` with `b` registered, `b`'s
directory entry exists with `busy = false`. -/
theorem endCall_partner_busy {st : ServerState} {a b : UserId} {ub : User}
    (hsc : SockConsistent st)
    (hab : mapGet st.activeCalls a = some b)
    (hub : getUserById st b = some ub) :
    ∃ w : User, getUserById (endCall a st).1 b = some w ∧ w.busy = false := by
  unfold endCall
  rw [hab]
  dsimp only
  have c2 : (getUserById st b).isSome = true := by rw [hub]; rfl
  rw [if_pos c2]
  set st1 := if (getUserById st a).isSome = true then setUserBusy a false st else st
    with hst1
  have hsc1 : SockConsistent st1 := by
    rw [hst1]
    split
    · exact sockConsistent_setUserBusy _ _ hsc
    · exact hsc
  have hb1 : (getUserById st1 b).isSome := by
    rw [hst1]
    split
    · exact isSome_getUserById_setUserBusy _ _ (by rw [hub]; rfl)
    · rw [hub]; rfl
  obtain ⟨w1, hw1⟩ := Option.isSome_iff_exists.mp hb1
  refine ⟨{ w1 with busy := false }, ?_, rfl⟩
  rw [getUserById_set_activeCalls]
  exact getUserById_setUserBusy_self false hsc1 hw1

/-- Running a list of events preserves reachability. -/
theorem reachable_runEvents (evs : List Event) (st : ServerState)
    (h : Reachable st) : Reachable (runEvents evs st) := by
  induction evs generalizing st with
  | nil => exact h
  | cons e rest ih => exact ih _ (Reachable.step e h)

/-! The waiting-queue operation algebra used for the FIFO claim. -/

/-- Abstract operations on the waiting queue, exactly as the handlers
perform them: conditional push (`enqueue`) and splice-out (`removeId`). -/
inductive QOp where
  | enq (x : UserId)
  | rem (x : UserId)
deriving Repr, DecidableEq

/-- Run a sequence of queue operations. -/
def runQ : List QOp → List UserId → List UserId
  | [], q => q
  | QOp.enq x :: rest, q => runQ rest (enqueue q x)
  | QOp.rem x :: rest, q => runQ rest (removeId q x)

/-- The enqueue arguments of a sequence, in order. -/
def enqArgs (ops : List QOp) : List UserId :=
  ops.filterMap fun op => match op with
    | QOp.enq x => some x
    | QOp.rem _ => none

theorem runQ_sublist : ∀ (ops : List QOp) (q l : List UserId), q.Sublist l →
    (runQ ops q).Sublist (l ++ enqArgs ops) := by
  intro ops
  induction ops with
  | nil =>
    intro q l h
    simpa [runQ, enqArgs] using h
  | cons op rest ih =>
    intro q l h
    cases op with
    | enq x =>
      show (runQ rest (enqueue q x)).Sublist _
      have hargs : enqArgs (QOp.enq x :: rest) = x :: enqArgs rest := rfl
      rw [hargs, show l ++ x :: enqArgs rest = (l ++ [x]) ++ enqArgs rest by simp]
      apply ih
      unfold enqueue
      split
      · exact h.trans (List.sublist_append_left l [x])
      · exact h.append (List.Sublist.refl [x])
    | rem x =>
      show (runQ rest (removeId q x)).Sublist _
      have hargs : enqArgs (QOp.rem x :: rest) = enqArgs rest := rfl
      rw [hargs]
      exact ih _ _ ((List.erase_sublist x q).trans h)

theorem mem_runQ_of_mem : ∀ (ops : List QOp) (q : List UserId) (x : UserId),
    x ∈ q → QOp.rem x ∉ ops → x ∈ runQ ops q := by
  intro ops
  induction ops with
  | nil =>
    intro q x hx _
    exact hx
  | cons op rest ih =>
    intro q x hx hrem
    cases op with
    | enq y =>
      refine ih _ _ ?_ (fun hr => hrem (List.mem_cons_of_mem _ hr))
      unfold enqueue
      split
      · exact hx
      · exact List.mem_append_left _ hx
    | rem y =>
      have hxy : x ≠ y := fun hxe => by
        subst hxe
        exact hrem (List.mem_cons_self _ _)
      refine ih _ _ ?_ (fun hr => hrem (List.mem_cons_of_mem _ hr))
      exact (List.mem_erase_of_ne hxy).mpr hx

theorem mem_runQ_of_enq : ∀ (ops : List QOp) (q : List UserId) (x : UserId),
    QOp.enq x ∈ ops → QOp.rem x ∉ ops → x ∈ runQ ops q := by
  intro ops
  induction ops with
  | nil =>
    intro q x h _
    simp at h
  | cons op rest ih =>
    intro q x henq hrem
    rcases List.mem_cons.mp henq with heq | hmem
    · rw [← heq]
      refine mem_runQ_of_mem rest _ x ?_ (fun hr => hrem (List.mem_cons_of_mem _ hr))
      unfold enqueue
      split
      · rename_i hx
        exact hx
      · exact List.mem_append_right _ (List.mem_singleton_self _)
    · cases op with
      | enq y => exact ih _ _ hmem (fun hr => hrem (List.mem_cons_of_mem _ hr))
      | rem y => exact ih _ _ hmem (fun hr => hrem (List.mem_cons_of_mem _ hr))

/-! Claim theorems. -/

/-- A small populated state used to witness the claim theorems: one nurse
`alice` on socket `s1`. -/
def stW1 : ServerState :=
  ⟨[("s1", ⟨"alice", "nurse", false, "s1"⟩)], [("alice", "s1")], [], []⟩

/-- C10: every rejected registration — empty/invalid id, invalid role, or an
id held by a different socket — leaves the whole coordinator state (directory,
call set, queue) exactly unchanged and reports only the error. -/
theorem c10_register_rejection_frame (st : ServerState) (sock : SocketId)
    (uid role : String) :
    (uid = "" →
      registerHandler sock uid role st =
        (st, [ServerMsg.errorMsg sock "Invalid user ID"])) ∧
    (uid ≠ "" → role ≠ "nurse" → role ≠ "patient" →
      registerHandler sock uid role st =
        (st, [ServerMsg.errorMsg sock "Invalid role"])) ∧
    (∀ k : SocketId, uid ≠ "" → (role = "nurse" ∨ role = "patient") →
      mapGet st.userSockets uid = some k → k ≠ sock →
      registerHandler sock uid role st =
        (st, [ServerMsg.errorMsg sock "User ID already registered"])) := by
  refine ⟨fun h1 => ?_, fun h1 h2 h3 => ?_, fun k h1 h2 hk hks => ?_⟩
  · simp [registerHandler, h1]
  · simp [registerHandler, h1, h2, h3]
  · have hrole : ¬(role ≠ "nurse" ∧ role ≠ "patient") := by
      rcases h2 with h | h <;> simp [h]
    simp [registerHandler, h1, hrole, hk, hks]

/-- Witness for C10 at concrete inputs: all three rejection kinds on `stW1`. -/
theorem c10_witness :
    registerHandler "s2" "" "nurse" stW1 =
      (stW1, [ServerMsg.errorMsg "s2" "Invalid user ID"]) ∧
    registerHandler "s2" "bob" "doctor" stW1 =
      (stW1, [ServerMsg.errorMsg "s2" "Invalid role"]) ∧
    registerHandler "s2" "alice" "nurse" stW1 =
      (stW1, [ServerMsg.errorMsg "s2" "User ID already registered"]) :=
  ⟨(c10_register_rejection_frame stW1 "s2" "" "nurse").1 rfl,
   (c10_register_rejection_frame stW1 "s2" "bob" "doctor").2.1
     (by decide) (by decide) (by decide),
   (c10_register_rejection_frame stW1 "s2" "alice" "nurse").2.2 "s1"
     (by decide) (Or.inl rfl) (by decide) (by decide)⟩

/-- C7: each of the four relay handlers (offer, answer, ice-candidate, chat)
is a silent no-op — unchanged state, no delivery, no error back to the
sender — whenever the sender's identity or the target's connection cannot be
resolved through the directory. -/
theorem c7_relay_silent_noop (st : ServerState) (sock : SocketId)
    (toId : UserId) (payload : String)
    (h : mapGet st.users sock = none ∨ getUserById st toId = none) :
    offerHandler sock toId payload st = (st, []) ∧
    answerHandler sock toId payload st = (st, []) ∧
    candidateHandler sock toId payload st = (st, []) ∧
    chatHandler sock toId payload st = (st, []) := by
  have hr : relayResolve st sock toId = none := by
    rcases h with h | h
    · unfold relayResolve
      rw [h]
    · unfold relayResolve
      rw [h]
      cases mapGet st.users sock <;> rfl
  simp [offerHandler, answerHandler, candidateHandler, chatHandler, hr]

/-- Witness for C7: an unregistered socket relaying to `alice` in `stW1`. -/
theorem c7_witness :
    offerHandler "s9" "alice" "blob" stW1 = (stW1, []) ∧
    answerHandler "s9" "alice" "blob" stW1 = (stW1, []) ∧
    candidateHandler "s9" "alice" "blob" stW1 = (stW1, []) ∧
    chatHandler "s9" "alice" "blob" stW1 = (stW1, []) :=
  c7_relay_silent_noop stW1 "s9" "alice" "blob" (Or.inl (by decide))

/-- The state after `alice` registers as a nurse from socket `s1`. -/
def c4State : ServerState := (registerHandler "s1" "alice" "nurse" initState).1

/-- C4 counterexample: when socket `s1` re-registers the already-held id
`alice` with role `patient`, the call succeeds (the only `registered`
acknowledgement echoes the requested role `patient`), while the stored entry
still has role `nurse` — so the handler does not return the existing entry
(same role) as the claim states. -/
theorem c4_counterexample :
    (registerHandler "s1" "alice" "patient" c4State).2 =
      [ServerMsg.registered "s1" "alice" "patient"] ∧
    (getUserById c4State "alice").map User.role = some "nurse" ∧
    ServerMsg.registered "s1" "alice" "nurse" ∉
      (registerHandler "s1" "alice" "patient" c4State).2 := by
  refine ⟨by decide, by decide, by decide⟩

/-- C4 (amended): with a valid id and role, if the id already maps to a
different socket the registration fails with the duplicate-id error and the
state is unchanged; if the same socket re-registers the id the call succeeds
with the state unchanged, and the acknowledgement echoes the requested id and
role (which may differ from the stored entry's role). -/
theorem c4_register_amended (st : ServerState) (sock : SocketId)
    (uid role : String) (k : SocketId)
    (hu : uid ≠ "") (hr : role = "nurse" ∨ role = "patient")
    (hk : mapGet st.userSockets uid = some k) :
    (k = sock →
      registerHandler sock uid role st =
        (st, [ServerMsg.registered sock uid role])) ∧
    (k ≠ sock →
      registerHandler sock uid role st =
        (st, [ServerMsg.errorMsg sock "User ID already registered"])) := by
  have hrole : ¬(role ≠ "nurse" ∧ role ≠ "patient") := by
    rcases hr with h | h <;> simp [h]
  constructor
  · intro hks
    simp [registerHandler, hu, hrole, hk, hks]
  · intro hks
    simp [registerHandler, hu, hrole, hk, hks]

/-- Witness for the amended C4: both the idempotent same-socket branch with
a different role and the duplicate-id rejection, on the concrete state. -/
theorem c4_witness :
    registerHandler "s1" "alice" "patient" c4State =
      (c4State, [ServerMsg.registered "s1" "alice" "patient"]) ∧
    registerHandler "s2" "alice" "nurse" c4State =
      (c4State, [ServerMsg.errorMsg "s2" "User ID already registered"]) :=
  ⟨(c4_register_amended c4State "s1" "alice" "patient" "s1"
      (by decide) (Or.inr rfl) (by decide)).1 rfl,
   (c4_register_amended c4State "s2" "alice" "nurse" "s1"
      (by decide) (Or.inl rfl) (by decide)).2 (by decide)⟩

/-- Idle patient `p1` on socket `s1` and idle nurse `n1` on socket `s2`. -/
def stW2 : ServerState :=
  ⟨[("s1", ⟨"p1", "patient", false, "s1"⟩), ("s2", ⟨"n1", "nurse", false, "s2"⟩)],
   [("p1", "s1"), ("n1", "s2")], [], []⟩

/-- C1: whenever the `callUser` handler acknowledges `callStarted`
(`requestCall` returns `Started`), both the caller `a` and the callee `b` are
busy afterwards, the call set binds `a ↔ b` symmetrically, a subsequent
`endCall(a)` resolves partner `b` (and `endCall(b)` resolves `a`), and
`endCall(a)` clears `busy` on both. -/
theorem c1_callUser_started (st : ServerState) (sock : SocketId)
    (calleeId : UserId) (caller callee : User)
    (hsc : SockConsistent st)
    (hc : mapGet st.users sock = some caller)
    (he : getUserById st calleeId = some callee)
    (hstarted : ServerMsg.callStarted sock calleeId ∈ (callUser sock calleeId st).2) :
    ((getUserById (callUser sock calleeId st).1 caller.id).map User.busy = some true) ∧
    ((getUserById (callUser sock calleeId st).1 callee.id).map User.busy = some true) ∧
    mapGet (callUser sock calleeId st).1.activeCalls caller.id = some callee.id ∧
    mapGet (callUser sock calleeId st).1.activeCalls callee.id = some caller.id ∧
    (endCall caller.id (callUser sock calleeId st).1).2.2 = some callee.id ∧
    (endCall callee.id (callUser sock calleeId st).1).2.2 = some caller.id ∧
    ((getUserById (endCall caller.id (callUser sock calleeId st).1).1 caller.id).map
      User.busy = some false) ∧
    ((getUserById (endCall caller.id (callUser sock calleeId st).1).1 callee.id).map
      User.busy = some false) := by
  unfold callUser at hstarted ⊢
  rw [hc, he] at hstarted ⊢
  dsimp only at hstarted ⊢
  by_cases hrole : caller.role = callee.role
  · rw [if_pos hrole] at hstarted
    simp at hstarted
  · rw [if_neg hrole] at hstarted ⊢
    by_cases hbusy : callee.busy = true
    · rw [if_pos hbusy] at hstarted
      by_cases hpn : caller.role = "patient" ∧ callee.role = "nurse"
      · rw [if_pos hpn] at hstarted
        by_cases hq : caller.id ∈ st.waitingQueue
        · rw [if_pos hq] at hstarted
          simp at hstarted
        · rw [if_neg hq] at hstarted
          simp at hstarted
      · rw [if_neg hpn] at hstarted
        simp at hstarted
    · rw [if_neg hbusy] at hstarted ⊢
      rcases hstc : startCall caller.id callee.id st with ⟨st1, msgs, flag⟩
      cases flag with
      | false =>
        rw [hstc] at hstarted
        obtain ⟨-, hmsgs⟩ := startCall_false hstc
        rw [hmsgs] at hstarted
        simp at hstarted
      | true =>
        rw [hstc] at hstarted
        dsimp only at hstarted ⊢
        obtain ⟨u1, u2, hu1, hu2⟩ := startCall_true hstc
        have post := startCall_post hsc hu1 hu2
        rw [hstc] at post
        dsimp only at post
        obtain ⟨-, pba, pbb, pca, pcb, -, -, psc⟩ := post
        obtain ⟨ua, hua, -⟩ := Option.map_eq_some'.mp pba
        obtain ⟨ub, hub, -⟩ := Option.map_eq_some'.mp pbb
        have epost := endCall_post psc pca hua hub
        exact ⟨pba, pbb, pca, pcb, endCall_ret pca, endCall_ret pcb,
          epost.2.1, epost.2.2⟩

/-- Witness for C1: `p1` calls the idle nurse `n1` in `stW2`; the call
starts, both become busy, the bindings are symmetric, and ending the call
from either side resolves the partner and clears busy. -/
theorem c1_witness :
    ((getUserById (callUser "s1" "n1" stW2).1 "p1").map User.busy = some true) ∧
    ((getUserById (callUser "s1" "n1" stW2).1 "n1").map User.busy = some true) ∧
    mapGet (callUser "s1" "n1" stW2).1.activeCalls "p1" = some "n1" ∧
    mapGet (callUser "s1" "n1" stW2).1.activeCalls "n1" = some "p1" ∧
    (endCall "p1" (callUser "s1" "n1" stW2).1).2.2 = some "n1" ∧
    (endCall "n1" (callUser "s1" "n1" stW2).1).2.2 = some "p1" ∧
    ((getUserById (endCall "p1" (callUser "s1" "n1" stW2).1).1 "p1").map
      User.busy = some false) ∧
    ((getUserById (endCall "p1" (callUser "s1" "n1" stW2).1).1 "n1").map
      User.busy = some false) :=
  c1_callUser_started stW2 "s1" "n1" ⟨"p1", "patient", false, "s1"⟩
    ⟨"n1", "nurse", false, "s2"⟩ (by decide) rfl rfl (by decide)

/-- Nurse `n1` on `s1`, patient `p1` on `s2`, queue `[ghost, p1]` where
`ghost` is a queued id that has gone offline. -/
def stW4 : ServerState :=
  ⟨[("s1", ⟨"n1", "nurse", false, "s1"⟩), ("s2", ⟨"p1", "patient", false, "s2"⟩)],
   [("n1", "s1"), ("p1", "s2")], [], ["ghost", "p1"]⟩

/-- C5: the `acceptWaiting` handler rejects a non-nurse caller as
unauthorized with no state change, rejects an unqueued requester with no
state change, drops the queue entry of a queued requester at any position and
rejects with `Patient offline` when that requester is no longer registered,
and otherwise performs the same atomic pairing as a started call
(both busy, symmetric binding) and acknowledges `callStarted` to the
patient. -/
theorem c5_acceptWaiting_cases (st : ServerState) (sock : SocketId)
    (patientId : UserId) :
    (mapGet st.users sock = none →
      acceptWaiting sock patientId st =
        (st, [ServerMsg.errorMsg sock "Unauthorized action"])) ∧
    (∀ u : User, mapGet st.users sock = some u → u.role ≠ "nurse" →
      acceptWaiting sock patientId st =
        (st, [ServerMsg.errorMsg sock "Unauthorized action"])) ∧
    (∀ u : User, mapGet st.users sock = some u → u.role = "nurse" →
      patientId ∉ st.waitingQueue →
      acceptWaiting sock patientId st =
        (st, [ServerMsg.errorMsg sock "Patient not in queue"])) ∧
    (∀ u : User, mapGet st.users sock = some u → u.role = "nurse" →
      patientId ∈ st.waitingQueue → getUserById st patientId = none →
      acceptWaiting sock patientId st =
        ({ st with waitingQueue := removeId st.waitingQueue patientId },
         [ServerMsg.errorMsg sock "Patient offline"])) ∧
    (∀ u pu nu : User, mapGet st.users sock = some u → u.role = "nurse" →
      patientId ∈ st.waitingQueue → getUserById st patientId = some pu →
      getUserById st u.id = some nu → SockConsistent st →
      (acceptWaiting sock patientId st).1.waitingQueue =
        removeId st.waitingQueue patientId ∧
      ((getUserById (acceptWaiting sock patientId st).1 u.id).map User.busy =
        some true) ∧
      ((getUserById (acceptWaiting sock patientId st).1 patientId).map User.busy =
        some true) ∧
      mapGet (acceptWaiting sock patientId st).1.activeCalls u.id = some patientId ∧
      mapGet (acceptWaiting sock patientId st).1.activeCalls patientId = some u.id ∧
      ServerMsg.callStarted pu.socketId u.id ∈ (acceptWaiting sock patientId st).2) := by
  refine ⟨fun h0 => ?_, fun u hu hr => ?_, fun u hu hr hq => ?_,
    fun u hu hr hq hoff => ?_, fun u pu nu hu hr hq hpu hnu hsc => ?_⟩
  · unfold acceptWaiting
    rw [h0]
  · unfold acceptWaiting
    rw [hu]
    dsimp only
    rw [if_pos hr]
  · unfold acceptWaiting
    rw [hu]
    dsimp only
    rw [if_neg (fun hne => hne hr), if_neg hq]
  · unfold acceptWaiting
    rw [hu]
    dsimp only
    rw [if_neg (fun hne => hne hr), if_pos hq]
    rw [show getUserById { st with waitingQueue := removeId st.waitingQueue patientId }
          patientId = none from hoff]
  · have hpu1 : getUserById
        { st with waitingQueue := removeId st.waitingQueue patientId } patientId =
        some pu := hpu
    have hnu1 : getUserById
        { st with waitingQueue := removeId st.waitingQueue patientId } u.id =
        some nu := hnu
    have hsc1 : SockConsistent
        { st with waitingQueue := removeId st.waitingQueue patientId } := hsc
    have post := startCall_post hsc1 hnu1 hpu1
    unfold acceptWaiting
    rw [hu]
    dsimp only
    rw [if_neg (fun hne => hne hr), if_pos hq]
    rw [hpu1]
    dsimp only
    rcases hstc : startCall u.id patientId
        { st with waitingQueue := removeId st.waitingQueue patientId } with
      ⟨st2, msgs, flag⟩
    rw [hstc] at post
    dsimp only at post
    obtain ⟨hflag, pba, pbb, pca, pcb, -, pqueue, -⟩ := post
    cases flag with
    | false => cases hflag
    | true =>
      dsimp only
      exact ⟨pqueue, pba, pbb, pca, pcb,
        List.mem_append_right _ (List.mem_singleton_self _)⟩

/-- Witness for C5: on `stW4`, an unknown socket and the patient socket are
unauthorized, an unqueued id is rejected, accepting the offline `ghost`
drops only its queue entry, and accepting `p1` (not at the head) pairs
`n1 ↔ p1` and acknowledges the patient. -/
theorem c5_witness :
    acceptWaiting "s9" "p1" stW4 =
      (stW4, [ServerMsg.errorMsg "s9" "Unauthorized action"]) ∧
    acceptWaiting "s2" "p1" stW4 =
      (stW4, [ServerMsg.errorMsg "s2" "Unauthorized action"]) ∧
    acceptWaiting "s1" "zz" stW4 =
      (stW4, [ServerMsg.errorMsg "s1" "Patient not in queue"]) ∧
    acceptWaiting "s1" "ghost" stW4 =
      ({ stW4 with waitingQueue := ["p1"] },
       [ServerMsg.errorMsg "s1" "Patient offline"]) ∧
    (acceptWaiting "s1" "p1" stW4).1.waitingQueue = ["ghost"] ∧
    ((getUserById (acceptWaiting "s1" "p1" stW4).1 "n1").map User.busy = some true) ∧
    ((getUserById (acceptWaiting "s1" "p1" stW4).1 "p1").map User.busy = some true) ∧
    mapGet (acceptWaiting "s1" "p1" stW4).1.activeCalls "n1" = some "p1" ∧
    mapGet (acceptWaiting "s1" "p1" stW4).1.activeCalls "p1" = some "n1" ∧
    ServerMsg.callStarted "s2" "n1" ∈ (acceptWaiting "s1" "p1" stW4).2 :=
  have h5 := c5_acceptWaiting_cases stW4 "s1" "p1"
  have hlast := (c5_acceptWaiting_cases stW4 "s1" "p1").2.2.2.2
    ⟨"n1", "nurse", false, "s1"⟩ ⟨"p1", "patient", false, "s2"⟩
    ⟨"n1", "nurse", false, "s1"⟩ rfl rfl (by decide) rfl rfl (by decide)
  ⟨(c5_acceptWaiting_cases stW4 "s9" "p1").1 (by decide),
   (c5_acceptWaiting_cases stW4 "s2" "p1").2.1
     ⟨"p1", "patient", false, "s2"⟩ rfl (by decide),
   (c5_acceptWaiting_cases stW4 "s1" "zz").2.2.1
     ⟨"n1", "nurse", false, "s1"⟩ rfl rfl (by decide),
   (c5_acceptWaiting_cases stW4 "s1" "ghost").2.2.2.1
     ⟨"n1", "nurse", false, "s1"⟩ rfl rfl (by decide) (by decide),
   hlast.1, hlast.2.1, hlast.2.2.1, hlast.2.2.2.1, hlast.2.2.2.2.1,
   hlast.2.2.2.2.2⟩

/-- Busy nurse `n1` on `s1` and idle patient `p1` on `s2`. -/
def stW5 : ServerState :=
  ⟨[("s1", ⟨"n1", "nurse", true, "s1"⟩), ("s2", ⟨"p1", "patient", false, "s2"⟩)],
   [("n1", "s1"), ("p1", "s2")], [], []⟩

/-- C6: a patient calling a busy nurse is appended to the waiting queue when
not yet queued and the result is `callWaiting` (Queued); when already queued
the state is unchanged with the same `callWaiting` result — so the handler
and the queue `enqueue` it performs are idempotent: issuing the same request
twice leaves the state of the first request. -/
theorem c6_callUser_queueing (st : ServerState) (sock : SocketId)
    (calleeId : UserId) (caller callee : User)
    (hc : mapGet st.users sock = some caller)
    (he : getUserById st calleeId = some callee)
    (hcr : caller.role = "patient") (her : callee.role = "nurse")
    (hbusy : callee.busy = true) :
    (caller.id ∉ st.waitingQueue →
      (callUser sock calleeId st).1 =
        { st with waitingQueue := st.waitingQueue ++ [caller.id] } ∧
      (callUser sock calleeId st).1.waitingQueue = enqueue st.waitingQueue caller.id ∧
      ∃ n : Nat, ServerMsg.callWaiting sock n ∈ (callUser sock calleeId st).2) ∧
    (caller.id ∈ st.waitingQueue →
      (callUser sock calleeId st).1 = st ∧
      ∃ n : Nat, ServerMsg.callWaiting sock n ∈ (callUser sock calleeId st).2) ∧
    (callUser sock calleeId ((callUser sock calleeId st).1)).1 =
      (callUser sock calleeId st).1 ∧
    enqueue (enqueue st.waitingQueue caller.id) caller.id =
      enqueue st.waitingQueue caller.id := by
  have hrole : ¬ caller.role = callee.role := by
    rw [hcr, her]
    decide
  have hpn : caller.role = "patient" ∧ callee.role = "nurse" := ⟨hcr, her⟩
  have key : ∀ s : ServerState, mapGet s.users sock = some caller →
      getUserById s calleeId = some callee →
      (caller.id ∈ s.waitingQueue →
        callUser sock calleeId s =
          (s, [ServerMsg.callWaiting sock (s.waitingQueue.indexOf caller.id + 1)])) ∧
      (caller.id ∉ s.waitingQueue →
        callUser sock calleeId s =
          ({ s with waitingQueue := s.waitingQueue ++ [caller.id] },
           [ServerMsg.waitingPatient callee.socketId caller.id
              (s.waitingQueue ++ [caller.id]).length,
            ServerMsg.callWaiting sock
              ((s.waitingQueue ++ [caller.id]).indexOf caller.id + 1)])) := by
    intro s hcs hes
    constructor
    · intro hq
      unfold callUser
      rw [hcs, hes]
      dsimp only
      rw [if_neg hrole, if_pos hbusy, if_pos hpn, if_pos hq]
    · intro hq
      unfold callUser
      rw [hcs, hes]
      dsimp only
      rw [if_neg hrole, if_pos hbusy, if_pos hpn, if_neg hq]
  refine ⟨fun hq => ?_, fun hq => ?_, ?_, ?_⟩
  · rw [(key st hc he).2 hq]
    refine ⟨rfl, ?_, ⟨(st.waitingQueue ++ [caller.id]).indexOf caller.id + 1, by simp⟩⟩
    simp [enqueue, hq]
  · rw [(key st hc he).1 hq]
    exact ⟨rfl, st.waitingQueue.indexOf caller.id + 1, by simp⟩
  · by_cases hq : caller.id ∈ st.waitingQueue
    · rw [(key st hc he).1 hq]
      dsimp only
      rw [(key st hc he).1 hq]
    · rw [(key st hc he).2 hq]
      dsimp only
      have hq1 : caller.id ∈
          ({ st with waitingQueue := st.waitingQueue ++ [caller.id] } :
            ServerState).waitingQueue :=
        List.mem_append_right _ (List.mem_singleton_self _)
      rw [(key { st with waitingQueue := st.waitingQueue ++ [caller.id] } hc he).1 hq1]
  · by_cases hq : caller.id ∈ st.waitingQueue
    · simp [enqueue, hq]
    · simp [enqueue, hq]

/-- Witness for C6: patient `p1` calls the busy nurse `n1` in `stW5`; the
queue gains `p1`, and repeating the request leaves the state unchanged. -/
theorem c6_witness :
    (callUser "s2" "n1" stW5).1 = { stW5 with waitingQueue := ["p1"] } ∧
    (callUser "s2" "n1" ((callUser "s2" "n1" stW5).1)).1 =
      (callUser "s2" "n1" stW5).1 ∧
    enqueue (enqueue stW5.waitingQueue "p1") "p1" = enqueue stW5.waitingQueue "p1" :=
  have h := c6_callUser_queueing stW5 "s2" "n1" ⟨"p1", "patient", false, "s2"⟩
    ⟨"n1", "nurse", true, "s1"⟩ rfl rfl rfl rfl rfl
  ⟨(h.1 (by decide)).1, h.2.2.1, h.2.2.2⟩

/-- Every server operation touches the waiting queue in one of exactly three
ways: leaves it alone, performs the conditional push (`enqueue`), or splices
one id out (`removeId`). -/
theorem applyEvent_queue_effect (e : Event) (st : ServerState) :
    (applyEvent e st).1.waitingQueue = st.waitingQueue ∨
    (∃ x, (applyEvent e st).1.waitingQueue = enqueue st.waitingQueue x) ∨
    (∃ x, (applyEvent e st).1.waitingQueue = removeId st.waitingQueue x) := by
  cases e with
  | register sock uid role =>
    dsimp only [applyEvent]
    unfold registerHandler
    left
    split
    · rfl
    · split
      · rfl
      · split
        · split <;> rfl
        · rfl
  | callUser sock calleeId =>
    dsimp only [applyEvent]
    unfold callUser
    split
    · left; rfl
    · rename_i caller hc
      split
      · left; rfl
      · rename_i callee he
        split
        · left; rfl
        · split
          · split
            · split
              · left; rfl
              · rename_i hq
                right; left
                refine ⟨caller.id, ?_⟩
                dsimp only
                simp [enqueue, hq]
            · left; rfl
          · split
            · rename_i st1 msgs heq
              left
              have hwq := startCall_waitingQueue caller.id callee.id st
              rw [heq] at hwq
              exact hwq
            · rename_i st1 msgs heq
              left
              have hwq := startCall_waitingQueue caller.id callee.id st
              rw [heq] at hwq
              exact hwq
  | acceptWaiting sock patientId =>
    dsimp only [applyEvent]
    unfold acceptWaiting
    split
    · left; rfl
    · rename_i nurse hn
      split
      · left; rfl
      · split
        · dsimp only
          split
          · right; right
            exact ⟨patientId, rfl⟩
          · split
            · rename_i st2 msgs heq
              right; right
              refine ⟨patientId, ?_⟩
              have hwq := startCall_waitingQueue nurse.id patientId
                { st with waitingQueue := removeId st.waitingQueue patientId }
              rw [heq] at hwq
              exact hwq
            · rename_i st2 msgs heq
              right; right
              refine ⟨patientId, ?_⟩
              have hwq := startCall_waitingQueue nurse.id patientId
                { st with waitingQueue := removeId st.waitingQueue patientId }
              rw [heq] at hwq
              exact hwq
        · left; rfl
  | endCall sock toId =>
    dsimp only [applyEvent]
    unfold endCallHandler
    split
    · left; rfl
    · rename_i sender hs
      split
      · left
        exact endCall_waitingQueue sender.id st
      · left; rfl
  | offer sock toId payload =>
    dsimp only [applyEvent]
    unfold offerHandler
    left
    split <;> rfl
  | answer sock toId payload =>
    dsimp only [applyEvent]
    unfold answerHandler
    left
    split <;> rfl
  | candidate sock toId payload =>
    dsimp only [applyEvent]
    unfold candidateHandler
    left
    split <;> rfl
  | chat sock toId payload =>
    dsimp only [applyEvent]
    unfold chatHandler
    left
    split <;> rfl
  | getQueue sock =>
    dsimp only [applyEvent]
    unfold getWaitingQueueHandler
    left
    split
    · split <;> rfl
    · rfl
  | disconnect sock =>
    dsimp only [applyEvent]
    unfold cleanupUser
    split
    · left; rfl
    · rename_i user hu
      right; right
      refine ⟨user.id, ?_⟩
      dsimp only
      split
      · rw [endCall_waitingQueue]
      · rfl

/-- C8: every server operation's effect on the waiting queue is the identity,
the conditional `enqueue`, or a single `removeId` — so relative order of
surviving entries is never disturbed; and over any sequence of such queue
operations, the resulting queue is a subsequence of the enqueue arguments in
order, and an id that was enqueued and never removed (never admitted, never
dropped by disconnect) is still present — i.e. never-admitted ids appear in
the queue read-out in exactly their insertion order. -/
theorem c8_queue_fifo :
    (∀ (e : Event) (st : ServerState),
      (applyEvent e st).1.waitingQueue = st.waitingQueue ∨
      (∃ x, (applyEvent e st).1.waitingQueue = enqueue st.waitingQueue x) ∨
      (∃ x, (applyEvent e st).1.waitingQueue = removeId st.waitingQueue x)) ∧
    (∀ ops : List QOp, (runQ ops []).Sublist (enqArgs ops)) ∧
    (∀ (ops : List QOp) (x : UserId),
      QOp.enq x ∈ ops → QOp.rem x ∉ ops → x ∈ runQ ops []) :=
  ⟨applyEvent_queue_effect,
   fun ops => by simpa using runQ_sublist ops [] [] (List.Sublist.refl []),
   fun ops x henq hrem => mem_runQ_of_enq ops [] x henq hrem⟩

/-- Witness for C8 at a concrete operation sequence: after enqueuing `p1`
then `p2` and removing `p1`, the queue is a subsequence of the enqueue order
and still contains the never-removed `p2`. -/
theorem c8_witness :
    ((runQ [QOp.enq "p1", QOp.enq "p2", QOp.rem "p1"] []).Sublist
      (enqArgs [QOp.enq "p1", QOp.enq "p2", QOp.rem "p1"])) ∧
    "p2" ∈ runQ [QOp.enq "p1", QOp.enq "p2", QOp.rem "p1"] [] :=
  ⟨c8_queue_fifo.2.1 _,
   c8_queue_fifo.2.2 [QOp.enq "p1", QOp.enq "p2", QOp.rem "p1"] "p2"
     (by decide) (by decide)⟩

/-- Events leading to the C2 failure: nurses `n1`, `n2` and patient `p1`
register, then `p1` starts a call with `n1` (both busy). -/
def c2Trace : List Event :=
  [Event.register "s1" "n1" "nurse", Event.register "s2" "p1" "patient",
   Event.register "s3" "n2" "nurse", Event.callUser "s2" "n1"]

/-- The reachable state in which busy `p1` is about to call idle `n2`. -/
def c2State : ServerState := runEvents c2Trace initState

/-- C2 refutation: in the reachable state `c2State` the patient `p1` is busy
(in a call with `n1`), yet `callUser` from `p1` to the idle nurse `n2`
acknowledges `callStarted` and silently overwrites `p1`'s binding: afterwards
`n1` is still bound to `p1` while `p1` is bound to `n2`, so `p1` appears in
two active-call bindings. -/
theorem c2_code_bug :
    Reachable c2State ∧
    ((getUserById c2State "p1").map User.busy = some true) ∧
    ServerMsg.callStarted "s2" "n2" ∈ (callUser "s2" "n2" c2State).2 ∧
    Reachable (callUser "s2" "n2" c2State).1 ∧
    mapGet (callUser "s2" "n2" c2State).1.activeCalls "n1" = some "p1" ∧
    mapGet (callUser "s2" "n2" c2State).1.activeCalls "p1" = some "n2" :=
  ⟨reachable_runEvents c2Trace initState Reachable.init,
   by decide, by decide,
   Reachable.step (Event.callUser "s2" "n2")
     (reachable_runEvents c2Trace initState Reachable.init),
   by decide, by decide⟩

/-- Events leading to the C3 failure: two nurses and two patients register,
`p1` calls `n1` and `p2` calls `n2` (all four busy), then the busy `p1`
calls the busy `n2` and is queued. -/
def c3Trace : List Event :=
  [Event.register "s1" "n1" "nurse", Event.register "s2" "n2" "nurse",
   Event.register "s3" "p1" "patient", Event.register "s4" "p2" "patient",
   Event.callUser "s3" "n1", Event.callUser "s4" "n2",
   Event.callUser "s3" "n2"]

/-- The reachable state refuting C3. -/
def c3State : ServerState := runEvents c3Trace initState

/-- C3 refutation: `c3State` is reachable, yet `p1` is in the waiting queue
while its directory entry shows `busy = true` (it is still in a call with
`n1`) — a queued requester is not `busy = false`. -/
theorem c3_code_bug :
    Reachable c3State ∧
    "p1" ∈ c3State.waitingQueue ∧
    ((getUserById c3State "p1").map User.busy = some true) ∧
    mapGet c3State.activeCalls "p1" = some "n1" :=
  ⟨reachable_runEvents c3Trace initState Reachable.init,
   by decide, by decide, by decide⟩

/-- Nurse `n1` (socket `s1`) in a call with patient `p1` (socket `s2`). -/
def stW6 : ServerState :=
  ⟨[("s1", ⟨"n1", "nurse", true, "s1"⟩), ("s2", ⟨"p1", "patient", true, "s2"⟩)],
   [("n1", "s1"), ("p1", "s2")], [("n1", "p1"), ("p1", "n1")], []⟩

/-- C9: disconnecting the socket of a RESPONDER (nurse) that is in an active
call performs the `endCall` semantics for the partner: afterwards the
partner's `busy` flag is `false`, neither member has a call binding, and the
disconnected id is gone from the directory (both lookups) and from the
waiting queue. -/
theorem c9_disconnect_responder (st : ServerState) (sock : SocketId)
    (u pu : User) (p : UserId)
    (hwf : WF st)
    (hu : mapGet st.users sock = some u)
    (_hrole : u.role = "nurse")
    (hcall : mapGet st.activeCalls u.id = some p)
    (hne : p ≠ u.id)
    (hpu : getUserById st p = some pu)
    (hpsock : pu.socketId ≠ sock) :
    ((getUserById (cleanupUser sock st).1 p).map User.busy = some false) ∧
    mapGet (cleanupUser sock st).1.activeCalls u.id = none ∧
    mapGet (cleanupUser sock st).1.activeCalls p = none ∧
    getUserById (cleanupUser sock st).1 u.id = none ∧
    mapGet (cleanupUser sock st).1.users sock = none ∧
    u.id ∉ (cleanupUser sock st).1.waitingQueue := by
  have hwfEC := wf_endCall u.id hwf
  have hclears := endCall_clears hwf.callsKeys hcall
  obtain ⟨w, hw, hwb⟩ := endCall_partner_busy hwf.sockConsistent hcall hpu
  obtain ⟨hacA, hacB, hus, hwq⟩ := hclears
  unfold cleanupUser
  rw [hu]
  dsimp only
  have cr : (mapGet st.activeCalls u.id).isSome = true := by rw [hcall]; rfl
  rw [if_pos cr]
  dsimp only
  -- name the endCall result state
  have hk : ∃ kp, mapGet st.userSockets p = some kp := by
    unfold getUserById at hpu
    cases hkp : mapGet st.userSockets p with
    | none => rw [hkp] at hpu; simp at hpu
    | some kp => exact ⟨kp, rfl⟩
  obtain ⟨kp, hkp⟩ := hk
  have hpuk : mapGet st.users kp = some pu := by
    unfold getUserById at hpu
    rw [hkp] at hpu
    simpa using hpu
  have hkps : kp ≠ sock := by
    have := hwf.sockConsistent (kp, pu) (mem_of_mapGet_eq_some hpuk)
    intro hcon
    exact hpsock (by rw [this, hcon])
  have hwEC : mapGet (endCall u.id st).1.users kp = some w := by
    unfold getUserById at hw
    rw [hus, hkp] at hw
    simpa using hw
  refine ⟨?_, ?_, ?_, ?_, ?_, ?_⟩
  · show (Option.map User.busy
      ((mapGet (mapDelete (endCall u.id st).1.userSockets u.id) p).bind
        fun s2 => mapGet (mapDelete (endCall u.id st).1.users sock) s2)) = some false
    rw [mapGet_mapDelete_ne _ hne, hus, hkp]
    simp only [Option.some_bind]
    rw [mapGet_mapDelete_ne _ hkps, hwEC]
    simp [hwb]
  · exact hacA
  · exact hacB
  · show ((mapGet (mapDelete (endCall u.id st).1.userSockets u.id) u.id).bind
      fun s2 => mapGet (mapDelete (endCall u.id st).1.users sock) s2) = none
    rw [mapGet_mapDelete_self _ ?_]
    · rfl
    · rw [hus]
      exact hwf.socketsKeys
  · exact mapGet_mapDelete_self _ hwfEC.usersKeys
  · show u.id ∉ removeId (endCall u.id st).1.waitingQueue u.id
    rw [hwq]
    exact hwf.queueNodup.not_mem_erase

/-- Witness for C9: disconnecting the nurse socket `s1` of `stW6` frees the
partner `p1`, clears both bindings and removes `n1` everywhere. -/
theorem c9_witness :
    ((getUserById (cleanupUser "s1" stW6).1 "p1").map User.busy = some false) ∧
    mapGet (cleanupUser "s1" stW6).1.activeCalls "n1" = none ∧
    mapGet (cleanupUser "s1" stW6).1.activeCalls "p1" = none ∧
    getUserById (cleanupUser "s1" stW6).1 "n1" = none ∧
    mapGet (cleanupUser "s1" stW6).1.users "s1" = none ∧
    "n1" ∉ (cleanupUser "s1" stW6).1.waitingQueue :=
  c9_disconnect_responder stW6 "s1" ⟨"n1", "nurse", true, "s1"⟩
    ⟨"p1", "patient", true, "s2"⟩ "p1"
    ⟨by decide, by decide, by decide, by decide, by decide⟩
    rfl rfl rfl (by decide) rfl (by decide)

end VideoCall
